import Mathlib

/-!
Verification of the gosible batch SSH engine (serialt/gosible).

Shallow embedding of the Go sources under internal/pkg/sshtask/sshtask.go and
the vault command package. Pure functions are translated directly; IO-derived
inputs (file contents, terminal prompt answers, agent signers, parsed private
keys) are passed as explicit parameters; fallible code returns Except or
Option. Functions that in the repository call util.CheckErr with a non-nil
error terminate the process; CheckErr is not under src/ and is modelled from
the spec (section 7: fatal errors terminate the process with non-zero exit),
which its callers in src confirm by relying on it to abort.
-/

namespace Gosible

/-! ### String helpers (models of the Go strings package, rune-level) -/

/-- Character class of the Go unicode.IsSpace set restricted to the code
points Go strings.TrimSpace actually removes for the inputs we model. -/
def isGoSpace (c : Char) : Bool :=
  c = ' ' || c = '\t' || c = '\n' || c = '\u000B' || c = '\u000C' || c = '\r' ||
  c = '\u0085' || c = ' '

/-- Go strings.TrimSpace on rune lists: drop leading and trailing whitespace. -/
def trimChars (l : List Char) : List Char :=
  ((l.dropWhile isGoSpace).reverse.dropWhile isGoSpace).reverse

/-- Go strings.TrimSpace. -/
def trimSpace (s : String) : String :=
  String.mk (trimChars s.data)

/-- Whether the first list is a leading segment of the second
(Go strings.HasPrefix on rune lists). -/
def hasPre : List Char → List Char → Bool
  | [], _ => true
  | _ :: _, [] => false
  | p :: ps, c :: cs => p == c && hasPre ps cs

/-! ### Vault ciphertext recognition

Modelled from the spec: the package internal/pkg/aes is not under src/.
Spec section 4.5: ciphertexts begin with a fixed printable header,
e.g. $GOSSH-AES256$; any string matching the header is treated as
ciphertext. AES256Decode itself is passed around as a parameter
(spec: decrypt(ciphertext, pass) gives plaintext or an error). -/
def isAES256CipherText (s : String) : Bool :=
  hasPre "$GOSSH-AES256$".data s.data

theorem cipher_ne_empty (s : String) (h : isAES256CipherText s = true) : s ≠ "" := by
  intro he
  subst he
  simp [isAES256CipherText, hasPre, String.data] at h

/-! ### deDuplicate and deDuplSSHHosts (sshtask.go lines 825-853)

The source walks the input once, keeping a map of keys already seen and
appending each unseen element to the output. We model the seen map as a
list queried by membership. -/

def deDupAux : List String → List String → List String
  | _, [] => []
  | keys, v :: rest =>
    if v ∈ keys then deDupAux keys rest
    else v :: deDupAux (v :: keys) rest

/-- sshtask.go deDuplicate: first-seen deduplication of hostname lists. -/
def deDuplicate (hosts : List String) : List String :=
  deDupAux [] hosts

/-- SSH authentication method, as assembled by sshtask.go: a public key
method carrying a list of signers, or a password method. Signers are
abstracted as the names of the keys they were parsed from. -/
inductive SSHAuthMethod
  | publicKeys (signers : List String)
  | password (p : String)
  deriving DecidableEq, Repr

/-- batchssh.Host as built by sshtask.go getAllHosts (field names follow the
Go struct). -/
structure BHost where
  Alias : String
  Host : String
  Port : Nat
  User : String
  Password : String
  Keys : List String
  SSHAuths : List SSHAuthMethod
  deriving DecidableEq, Repr

def deDuplSSHAux : List String → List BHost → List BHost
  | _, [] => []
  | keys, v :: rest =>
    if v.Alias ∈ keys then deDuplSSHAux keys rest
    else v :: deDuplSSHAux (v.Alias :: keys) rest

/-- sshtask.go deDuplSSHHosts: first-seen deduplication of host records by alias. -/
def deDuplSSHHosts (hosts : List BHost) : List BHost :=
  deDuplSSHAux [] hosts

/-- Specification-side deduplication, written from the words of the spec:
keep exactly the first occurrence of each element, in first-seen order. -/
def firstOccur : List String → List String
  | [] => []
  | x :: xs => x :: firstOccur (xs.filter (fun y => decide (y ≠ x)))
termination_by l => l.length
decreasing_by
  simp only [List.length_cons]
  exact Nat.lt_succ_of_le (List.length_filter_le _ _)

/-- Specification-side deduplication of host records by alias:
keep exactly the first occurrence of each alias, in first-seen order. -/
def firstOccurBy : List BHost → List BHost
  | [] => []
  | x :: xs => x :: firstOccurBy (xs.filter (fun y => decide (y.Alias ≠ x.Alias)))
termination_by l => l.length
decreasing_by
  simp only [List.length_cons]
  exact Nat.lt_succ_of_le (List.length_filter_le _ _)

theorem deDupAux_eq_firstOccur (xs : List String) :
    ∀ keys : List String, deDupAux keys xs =
      firstOccur (xs.filter (fun y => decide (y ∉ keys))) := by
  induction xs with
  | nil => intro keys; simp [deDupAux, firstOccur]
  | cons v rest ih =>
    intro keys
    simp only [deDupAux]
    by_cases hv : v ∈ keys
    · rw [if_pos hv, List.filter_cons_of_neg (by simp [hv]), ih keys]
    · rw [if_neg hv, List.filter_cons_of_pos (by simp [hv])]
      rw [firstOccur]
      rw [ih (v :: keys), List.filter_filter]
      congr 1
      congr 1
      apply List.filter_congr
      intro y _
      by_cases h1 : y = v
      · simp [h1]
      · by_cases h2 : y ∈ keys <;> simp [h1, h2]

theorem deDuplSSHAux_eq_firstOccurBy (xs : List BHost) :
    ∀ keys : List String, deDuplSSHAux keys xs =
      firstOccurBy (xs.filter (fun y => decide (y.Alias ∉ keys))) := by
  induction xs with
  | nil => intro keys; simp [deDuplSSHAux, firstOccurBy]
  | cons v rest ih =>
    intro keys
    simp only [deDuplSSHAux]
    by_cases hv : v.Alias ∈ keys
    · rw [if_pos hv, List.filter_cons_of_neg (by simp [hv]), ih keys]
    · rw [if_neg hv, List.filter_cons_of_pos (by simp [hv])]
      rw [firstOccurBy]
      rw [ih (v.Alias :: keys), List.filter_filter]
      congr 1
      congr 1
      apply List.filter_congr
      intro y _
      by_cases h1 : y.Alias = v.Alias
      · simp [h1]
      · by_cases h2 : y.Alias ∈ keys <;> simp [h1, h2]

/-- C9: deDuplicate and deDuplSSHHosts keep exactly the first occurrence of
each key (the string itself, resp. the alias) and preserve first-seen order:
both agree with the specification-side first-occurrence deduplication. -/
theorem C9_dedup_first_seen :
    (∀ xs : List String, deDuplicate xs = firstOccur xs) ∧
    (∀ hs : List BHost, deDuplSSHHosts hs = firstOccurBy hs) := by
  constructor
  · intro xs
    rw [deDuplicate, deDupAux_eq_firstOccur xs []]
    congr 1
    simp
  · intro hs
    rw [deDuplSSHHosts, deDuplSSHAux_eq_firstOccurBy hs []]
    congr 1
    simp

/-! ### BatchRun result aggregation (sshtask.go lines 313-338)

The loop over the batchssh result channel classifies each incoming host
result by its status, increments exactly one of the two counters, forwards
one detail record per result to the detail channel, and finally sends one
task summary. The result channel and the status constant come from the
batchssh package, which is not under src/; they are modelled from the spec
(section 6: per-host status is success or failed; one summary record). -/

/-- Modelled from the spec: batchssh.SuccessIdentifier, the status string of
a successful host result (spec section 6: status success or failed). -/
def successIdentifier : String := "success"

/-- A host result as received from the batchssh result channel. -/
structure SSHResult where
  Host : String
  Status : String
  Message : String
  deriving DecidableEq, Repr

/-- A record sent to the detail output channel (taskID omitted: it is the
same constant for every record of a task). -/
structure DetailRecord where
  hostname : String
  status : String
  output : String
  deriving DecidableEq, Repr

/-- An event observable on the output channels of BatchRun. -/
inductive OutEvent
  | detail (r : DetailRecord)
  | summary (succ : Nat) (failed : Nat)
  deriving DecidableEq, Repr

/-- The BatchRun result loop with its two counters (sshtask.go 314-337),
as the list of events it emits. -/
def batchRunLoop : List SSHResult → Nat → Nat → List OutEvent
  | [], s, f => [OutEvent.summary s f]
  | v :: rest, s, f =>
    if v.Status = successIdentifier then
      OutEvent.detail ⟨v.Host, v.Status, v.Message⟩ :: batchRunLoop rest (s + 1) f
    else
      OutEvent.detail ⟨v.Host, v.Status, v.Message⟩ :: batchRunLoop rest s (f + 1)

/-- All events BatchRun emits for a given stream of host results. -/
def batchRunEmit (results : List SSHResult) : List OutEvent :=
  batchRunLoop results 0 0

/-- The summary events among a list of emitted events. -/
def summariesOf (evs : List OutEvent) : List (Nat × Nat) :=
  evs.filterMap (fun e => match e with
    | OutEvent.summary s f => some (s, f)
    | _ => none)

/-- The detail records among a list of emitted events. -/
def detailsOf (evs : List OutEvent) : List DetailRecord :=
  evs.filterMap (fun e => match e with
    | OutEvent.detail r => some r
    | _ => none)

theorem batchRunLoop_spec (results : List SSHResult) :
    ∀ s f : Nat, batchRunLoop results s f =
      results.map (fun v => OutEvent.detail ⟨v.Host, v.Status, v.Message⟩) ++
      [OutEvent.summary (s + results.countP (fun v => decide (v.Status = successIdentifier)))
        (f + results.countP (fun v => decide (v.Status ≠ successIdentifier)))] := by
  induction results with
  | nil => intro s f; simp [batchRunLoop]
  | cons v rest ih =>
    intro s f
    by_cases hv : v.Status = successIdentifier
    · simp only [batchRunLoop, if_pos hv, ih (s + 1) f, List.map_cons, List.cons_append,
        List.countP_cons]
      simp [hv, Nat.add_assoc, Nat.add_comm 1]
    · simp only [batchRunLoop, if_neg hv, ih s (f + 1), List.map_cons, List.cons_append,
        List.countP_cons]
      simp [hv, Nat.add_assoc, Nat.add_comm 1]

theorem detailsOf_shape (a b : Nat) (l : List SSHResult) :
    detailsOf (l.map (fun v => OutEvent.detail ⟨v.Host, v.Status, v.Message⟩) ++
      [OutEvent.summary a b]) = l.map (fun v => ⟨v.Host, v.Status, v.Message⟩) := by
  induction l with
  | nil => rfl
  | cons v rest ih =>
    simp only [List.map_cons, List.cons_append]
    show (⟨v.Host, v.Status, v.Message⟩ : DetailRecord) :: detailsOf _ = _
    rw [ih]

theorem summariesOf_shape (a b : Nat) (l : List SSHResult) :
    summariesOf (l.map (fun v => OutEvent.detail ⟨v.Host, v.Status, v.Message⟩) ++
      [OutEvent.summary a b]) = [(a, b)] := by
  induction l with
  | nil => rfl
  | cons v rest ih =>
    simp only [List.map_cons, List.cons_append]
    show summariesOf _ = _
    exact ih

theorem countP_status_split (l : List SSHResult) :
    l.countP (fun v => decide (v.Status = successIdentifier)) +
      l.countP (fun v => decide (v.Status ≠ successIdentifier)) = l.length := by
  induction l with
  | nil => rfl
  | cons v rest ih =>
    simp only [List.countP_cons, List.length_cons, decide_not] at ih ⊢
    by_cases hv : v.Status = successIdentifier <;> simp [hv] <;> omega

/-- C5: for every batch run that completes, exactly one task summary is
emitted; its success count plus failure count equals the number of detail
records emitted; each received host result is classified by comparing its
status to the success identifier and is forwarded exactly once, in order. -/
theorem C5_summary_invariant (results : List SSHResult) :
    summariesOf (batchRunEmit results) =
      [(results.countP (fun v => decide (v.Status = successIdentifier)),
        results.countP (fun v => decide (v.Status ≠ successIdentifier)))] ∧
    detailsOf (batchRunEmit results) =
      results.map (fun v => ⟨v.Host, v.Status, v.Message⟩) ∧
    results.countP (fun v => decide (v.Status = successIdentifier)) +
      results.countP (fun v => decide (v.Status ≠ successIdentifier)) =
      (detailsOf (batchRunEmit results)).length := by
  have hspec := batchRunLoop_spec results 0 0
  have h2 : detailsOf (batchRunEmit results) =
      results.map (fun v => ⟨v.Host, v.Status, v.Message⟩) := by
    rw [batchRunEmit, hspec]; exact detailsOf_shape _ _ results
  refine ⟨?_, h2, ?_⟩
  · rw [batchRunEmit, hspec, summariesOf_shape]
    simp
  · rw [h2, List.length_map]
    exact countP_status_split results

/-! ### Channel shutdown on task timeout (sshtask.go Task.Start, lines 143-169)

Start launches BatchRun in a goroutine whose deferred calls close the two
output channels, and, when the task timeout is positive, a second goroutine
that on expiry also closes the same two channels. Go channel semantics:
closing an already closed channel panics, and sending on a closed channel
panics. We model the two channels by their closed flags and an operation
trace; None is a runtime panic. -/

inductive ChanOp
  | closeDetail
  | closeTask
  | sendDetail
  deriving DecidableEq, Repr

structure ChanState where
  detailClosed : Bool
  taskClosed : Bool
  deriving DecidableEq, Repr

def chanInit : ChanState := ⟨false, false⟩

/-- One channel operation under Go semantics: close of a closed channel and
send on a closed channel are runtime panics (modelled as none). -/
def execOp (st : ChanState) : ChanOp → Option ChanState
  | ChanOp.closeDetail =>
    if st.detailClosed then none else some { st with detailClosed := true }
  | ChanOp.closeTask =>
    if st.taskClosed then none else some { st with taskClosed := true }
  | ChanOp.sendDetail =>
    if st.detailClosed then none else some st

def execOps : ChanState → List ChanOp → Option ChanState
  | st, [] => some st
  | st, op :: rest =>
    match execOp st op with
    | none => none
    | some st2 => execOps st2 rest

/-- The operations of the task-timeout goroutine (sshtask.go 156-165): it
closes the detail channel, then the task channel. -/
def timeoutOps : List ChanOp := [ChanOp.closeDetail, ChanOp.closeTask]

/-- The deferred operations of the BatchRun goroutine (sshtask.go 148-152):
defers run in reverse order, so the detail channel is closed first, then the
task channel. -/
def batchRunDeferOps : List ChanOp := [ChanOp.closeDetail, ChanOp.closeTask]

/-- C4 (failing input): when the task timeout fires while BatchRun is still
in flight, the shutdown panics. If BatchRun then completes, its deferred
closes hit already-closed channels; if it instead publishes one more host
result, the send hits a closed channel. Both interleavings are runtime
panics, contradicting the claim that the shutdown never panics. -/
theorem C4_timeout_shutdown_panics :
    execOps chanInit (timeoutOps ++ batchRunDeferOps) = none ∧
    execOps chanInit (timeoutOps ++ [ChanOp.sendDetail]) = none := by
  constructor <;> rfl

/-! ### Vault password source (vault package, src/unnamed/part_001 lines 230-307)

GetVaultPassword first consults getVaultPasswordFromFile; a configured file
with any executable bit set is executed and its trimmed stdout taken,
otherwise its trimmed contents are taken, with shebang contents rejected.
With no configured file the user is prompted until the input is non-empty.
IO is modelled by a VaultEnv record carrying what the file system and the
terminal would deliver; util.CheckErr aborts are Except.error. -/

inductive VaultErr
  | execFailed
  | execEmptyOutput
  | readFailed
  | emptyFile
  | shebangNotExecutable
  | promptFailed
  deriving DecidableEq, Repr

/-- The environment the vault password source reads from: the configured
file path (empty string when not configured, as in configflags), whether the
file has an executable bit (isExectuable, part_001 lines 365-372), the
stdout of executing it (none models an exec error), its contents (none
models a read error), and the successive terminal prompt answers. -/
structure VaultEnv where
  vaultPassFile : String
  fileExecutable : Bool
  execStdout : Option String
  fileContents : Option String
  promptInputs : List String
  deriving DecidableEq, Repr

/-- vault getVaultPasswordFromFile: empty string means no file configured. -/
def getVaultPasswordFromFile (e : VaultEnv) : Except VaultErr String :=
  if e.vaultPassFile ≠ "" then
    if e.fileExecutable then
      match e.execStdout with
      | none => Except.error VaultErr.execFailed
      | some out =>
        let vaultPass := trimSpace out
        if vaultPass = "" then Except.error VaultErr.execEmptyOutput
        else Except.ok vaultPass
    else
      match e.fileContents with
      | none => Except.error VaultErr.readFailed
      | some content =>
        let vaultPass := trimSpace content
        if vaultPass = "" then Except.error VaultErr.emptyFile
        else if hasPre "#!/".data vaultPass.data then
          Except.error VaultErr.shebangNotExecutable
        else Except.ok vaultPass
  else Except.ok ""

/-- The prompt retry loop of GetVaultPassword: the first non-empty answer,
together with how many prompts were issued to reach it. -/
def firstNonEmpty : List String → Option (String × Nat)
  | [] => none
  | p :: rest =>
    if p ≠ "" then some (p, 1)
    else (firstNonEmpty rest).map (fun q => (q.1, q.2 + 1))

/-- vault GetVaultPassword, returning the password and the number of
terminal prompts issued (0 when the file source supplied it). Exhausting a
finite prompt stream models the loop never terminating and is an error. -/
def getVaultPassword (e : VaultEnv) : Except VaultErr (String × Nat) :=
  match getVaultPasswordFromFile e with
  | Except.error er => Except.error er
  | Except.ok p =>
    if p ≠ "" then Except.ok (p, 0)
    else
      match firstNonEmpty e.promptInputs with
      | some q => Except.ok q
      | none => Except.error VaultErr.promptFailed

theorem firstNonEmpty_shape (es : List String) (p : String) (rest : List String)
    (hes : ∀ x ∈ es, x = "") (hp : p ≠ "") :
    firstNonEmpty (es ++ p :: rest) = some (p, es.length + 1) := by
  induction es with
  | nil => simp [firstNonEmpty, hp]
  | cons x xs ih =>
    have hx : x = "" := hes x (List.mem_cons_self x xs)
    have ihx := ih (fun y hy => hes y (List.mem_cons_of_mem x hy))
    simp [firstNonEmpty, hx, ihx, Nat.add_comm, Nat.add_assoc, Nat.add_left_comm]

/-- C8: the vault password source. A configured executable file is executed
and its trimmed stdout is the password; a configured non-executable file
yields its trimmed contents, except that shebang contents are rejected with
the dedicated diagnostic; with no configured file the terminal is prompted,
empty answers being rejected and re-prompted until one is non-empty. -/
theorem C8_vault_password_source :
    (∀ e : VaultEnv, ∀ out : String, e.vaultPassFile ≠ "" → e.fileExecutable = true →
      e.execStdout = some out → trimSpace out ≠ "" →
      getVaultPassword e = Except.ok (trimSpace out, 0)) ∧
    (∀ e : VaultEnv, ∀ c : String, e.vaultPassFile ≠ "" → e.fileExecutable = false →
      e.fileContents = some c → trimSpace c ≠ "" →
      hasPre "#!/".data (trimSpace c).data = false →
      getVaultPassword e = Except.ok (trimSpace c, 0)) ∧
    (∀ e : VaultEnv, ∀ c : String, e.vaultPassFile ≠ "" → e.fileExecutable = false →
      e.fileContents = some c → hasPre "#!/".data (trimSpace c).data = true →
      getVaultPassword e = Except.error VaultErr.shebangNotExecutable) ∧
    (∀ e : VaultEnv, ∀ es : List String, ∀ p : String, ∀ rest : List String,
      e.vaultPassFile = "" → e.promptInputs = es ++ p :: rest →
      (∀ x ∈ es, x = "") → p ≠ "" →
      getVaultPassword e = Except.ok (p, es.length + 1)) := by
  refine ⟨?_, ?_, ?_, ?_⟩
  · intro e out hf hx hout hne
    rw [getVaultPassword]
    rw [show getVaultPasswordFromFile e = Except.ok (trimSpace out) by
      simp [getVaultPasswordFromFile, hf, hx, hout, hne]]
    simp [hne]
  · intro e c hf hx hc hne hsb
    rw [getVaultPassword]
    rw [show getVaultPasswordFromFile e = Except.ok (trimSpace c) by
      simp [getVaultPasswordFromFile, hf, hx, hc, hne, hsb]]
    simp [hne]
  · intro e c hf hx hc hsb
    have hne : trimSpace c ≠ "" := by
      intro he
      rw [he] at hsb
      simp [hasPre, String.data] at hsb
    rw [getVaultPassword]
    rw [show getVaultPasswordFromFile e = Except.error VaultErr.shebangNotExecutable by
      simp [getVaultPasswordFromFile, hf, hx, hc, hne, hsb]]
  · intro e es p rest hf hpi hes hp
    rw [getVaultPassword]
    rw [show getVaultPasswordFromFile e = Except.ok "" by
      simp [getVaultPasswordFromFile, hf]]
    simp [hpi, firstNonEmpty_shape es p rest hes hp]

/-- Closed witness for C8: each clause applied at a concrete environment. -/
theorem C8_vault_password_source_witness :
    getVaultPassword ⟨"vf", true, some " hunter2 ", none, []⟩ = Except.ok ("hunter2", 0) ∧
    getVaultPassword ⟨"vf", false, none, some "hunter2", []⟩ = Except.ok ("hunter2", 0) ∧
    getVaultPassword ⟨"vf", false, none, some "#!/bin/sh", []⟩ =
      Except.error VaultErr.shebangNotExecutable ∧
    getVaultPassword ⟨"", false, none, none, ["", "", "pw"]⟩ = Except.ok ("pw", 3) := by
  refine ⟨?_, ?_, ?_, ?_⟩
  · exact C8_vault_password_source.1 ⟨"vf", true, some " hunter2 ", none, []⟩ " hunter2 "
      (by decide) rfl rfl (by decide)
  · exact C8_vault_password_source.2.1 ⟨"vf", false, none, some "hunter2", []⟩ "hunter2"
      (by decide) rfl rfl (by decide) (by decide)
  · exact C8_vault_password_source.2.2.1 ⟨"vf", false, none, some "#!/bin/sh", []⟩ "#!/bin/sh"
      (by decide) rfl rfl (by decide)
  · exact C8_vault_password_source.2.2.2 ⟨"", false, none, none, ["", "", "pw"]⟩ ["", ""] "pw" []
      rfl rfl (by decide) (by decide)

/-! ### assignRealPass and inventory host resolution (sshtask.go 424-522, 809-823)

assignRealPass checks the vault ciphertext header; on a match it calls
vault.GetVaultPassword and aes.AES256Decode, and on a decryption error it
calls util.CheckErr, terminating the process. AES256Decode is passed as a
parameter dec (ciphertext, vault password to plaintext, none on failure).
The returned Nat counts how many times GetVaultPassword was invoked. -/

inductive TaskAbort
  | vaultSource (e : VaultErr)
  | vaultDecrypt
  | passFileRead
  deriving DecidableEq, Repr

/-- sshtask.go assignRealPass (lines 809-823). Note that GetVaultPassword is
called afresh on every invocation that sees a ciphertext: the vault package
keeps no cache. -/
def assignRealPass (venv : VaultEnv) (dec : String → String → Option String)
    (pass : String) : Except TaskAbort (String × Nat) :=
  if isAES256CipherText pass then
    match getVaultPassword venv with
    | Except.error e => Except.error (TaskAbort.vaultSource e)
    | Except.ok vp =>
      match dec pass vp.1 with
      | none => Except.error TaskAbort.vaultDecrypt
      | some p => Except.ok (p, 1)
  else Except.ok (pass, 0)

/-- sshtask.go getSigners/getSigner over a list of identity files: each file
either yields a signer or a diagnostic; sigOf is the parsed result of
getSigner (file, passphrase), abstracting file reading and key parsing. -/
def getSigners (sigOf : String → String → Option String)
    (keyfiles : List String) (passphrase : String) : List String :=
  keyfiles.filterMap (fun f => sigOf f passphrase)

/-- A host as read from the inventory (pkg/inventory Host), field names
following the Go struct. -/
structure InvHost where
  Alias : String
  Host : String
  Port : Nat
  User : String
  Password : String
  Keys : List String
  Passphrase : String
  deriving DecidableEq, Repr

/-- The task-level defaults consulted by getAllHosts. -/
structure TaskDefaults where
  port : Nat
  user : String
  defaultPass : String
  deriving DecidableEq, Repr

/-- Whether an Except value is an error. -/
def isErr {ε α : Type} : Except ε α → Bool
  | Except.error _ => true
  | Except.ok _ => false

/-- The identity-keys block of the inventory loop (sshtask.go 487-497):
when the host has individual keys, its passphrase is vault-resolved and the
parsed signers become an individual public key method. -/
def keyStep (venv : VaultEnv) (dec : String → String → Option String)
    (sigOf : String → String → Option String) (v : InvHost) :
    Except TaskAbort (List SSHAuthMethod × Nat) :=
  if v.Keys ≠ [] then
    match assignRealPass venv dec v.Passphrase with
    | Except.error e => Except.error e
    | Except.ok pr =>
      let sshSigners := getSigners sigOf v.Keys pr.1
      if sshSigners = [] then Except.ok ([], pr.2)
      else Except.ok ([SSHAuthMethod.publicKeys sshSigners], pr.2)
  else Except.ok ([], 0)

/-- The password block of the inventory loop (sshtask.go 499-506): a host
without its own password takes the task default and vault-resolves it; a
host with one vault-resolves it and gains an individual password method.
Returns the methods added, the effective password, and the count of
GetVaultPassword invocations. -/
def passStep (venv : VaultEnv) (dec : String → String → Option String)
    (d : TaskDefaults) (v : InvHost) :
    Except TaskAbort (List SSHAuthMethod × String × Nat) :=
  if v.Password = "" then
    match assignRealPass venv dec d.defaultPass with
    | Except.error e => Except.error e
    | Except.ok pr => Except.ok ([], pr.1, pr.2)
  else
    match assignRealPass venv dec v.Password with
    | Except.error e => Except.error e
    | Except.ok pr => Except.ok ([SSHAuthMethod.password pr.1], pr.1, pr.2)

/-- One iteration of the inventory loop of sshtask.go getAllHosts
(lines 472-519): default the port and user, run the identity-keys block and
the password block, and assemble the per-host auth method list followed by
the default methods. Any assignRealPass failure aborts the whole
resolution. The Nat counts GetVaultPassword invocations. -/
def processInvHost (venv : VaultEnv) (dec : String → String → Option String)
    (sigOf : String → String → Option String) (d : TaskDefaults)
    (defaultAuths : List SSHAuthMethod) (v : InvHost) :
    Except TaskAbort (BHost × Nat) :=
  match keyStep venv dec sigOf v with
  | Except.error e => Except.error e
  | Except.ok (auths1, c1) =>
    match passStep venv dec d v with
    | Except.error e => Except.error e
    | Except.ok (auths2, pass, c2) =>
      Except.ok ({ Alias := v.Alias, Host := v.Host,
                   Port := if v.Port = 0 then d.port else v.Port,
                   User := if v.User = "" then d.user else v.User,
                   Password := pass, Keys := v.Keys,
                   SSHAuths := auths1 ++ auths2 ++ defaultAuths }, c1 + c2)

/-- The inventory branch of getAllHosts: process the deduplicated inventory
hosts in order; the first abort kills the whole resolution (no partial host
list and no per-host Failed result is produced). -/
def getAllHostsFromInventory (venv : VaultEnv) (dec : String → String → Option String)
    (sigOf : String → String → Option String) (d : TaskDefaults)
    (defaultAuths : List SSHAuthMethod) : List InvHost → Except TaskAbort (List BHost × Nat)
  | [] => Except.ok ([], 0)
  | v :: rest =>
    match processInvHost venv dec sigOf d defaultAuths v with
    | Except.error e => Except.error e
    | Except.ok (h, c) =>
      match getAllHostsFromInventory venv dec sigOf d defaultAuths rest with
      | Except.error e => Except.error e
      | Except.ok (hs, cs) => Except.ok (h :: hs, c + cs)

/-! Concrete inputs used by the counterexamples and witnesses. -/

/-- A vault environment whose password file simply contains a password. -/
def venv0 : VaultEnv := ⟨"vault-pass.txt", false, none, some "vaultpw", []⟩

/-- A concrete vault ciphertext (matches the header). -/
def cipher0 : String := "$GOSSH-AES256$deadbeef"

/-- A decryption oracle that always fails (wrong vault password). -/
def decFail : String → String → Option String := fun _ _ => none

/-- A decryption oracle that always succeeds. -/
def decOk : String → String → Option String := fun _ _ => some "sesame"

/-- No identity file parses to a signer. -/
def sig0 : String → String → Option String := fun _ _ => none

def d0 : TaskDefaults := ⟨22, "root", ""⟩

/-- An inventory host whose password is a vault ciphertext. -/
def hCipher : InvHost := ⟨"web1", "web1", 22, "root", cipher0, [], ""⟩

/-- A second inventory host with a vault ciphertext password. -/
def hCipher2 : InvHost := ⟨"web2", "web2", 22, "root", cipher0, [], ""⟩

/-- An inventory host with a plaintext password. -/
def hPlain : InvHost := ⟨"web2", "web2", 22, "root", "plainpw", [], ""⟩

/-- C1 counterexample: with one host whose vault-encrypted password fails to
decrypt and one healthy host, host resolution aborts fatally through
util.CheckErr instead of producing a Failed result for the first host and a
host entry for the second: the whole task stops before any host is run,
refuting the per-host, non-fatal reading of the claim. -/
theorem C1_counterexample :
    getAllHostsFromInventory venv0 decFail sig0 d0 [] [hCipher, hPlain] =
      Except.error TaskAbort.vaultDecrypt ∧
    (getAllHostsFromInventory venv0 decFail sig0 d0 [] [hCipher, hPlain]).isOk = false := by
  constructor <;> rfl

theorem passStep_decrypt_abort (venv : VaultEnv)
    (dec : String → String → Option String) (d : TaskDefaults) (v : InvHost)
    (hc : isAES256CipherText v.Password = true)
    (hd : ∀ vp, dec v.Password vp = none) :
    isErr (passStep venv dec d v) = true := by
  have hne : v.Password ≠ "" := cipher_ne_empty _ hc
  rw [passStep, if_neg hne, assignRealPass, if_pos hc]
  cases hv : getVaultPassword venv with
  | error e => simp [isErr]
  | ok vp => simp [hd vp.1, isErr]

theorem keyStep_decrypt_abort (venv : VaultEnv)
    (dec : String → String → Option String) (sigOf : String → String → Option String)
    (v : InvHost) (hk : v.Keys ≠ [])
    (hc : isAES256CipherText v.Passphrase = true)
    (hd : ∀ vp, dec v.Passphrase vp = none) :
    isErr (keyStep venv dec sigOf v) = true := by
  rw [keyStep, if_pos hk, assignRealPass, if_pos hc]
  cases hv : getVaultPassword venv with
  | error e => simp [isErr]
  | ok vp => simp [hd vp.1, isErr]

theorem processInvHost_passphrase_abort (venv : VaultEnv)
    (dec : String → String → Option String) (sigOf : String → String → Option String)
    (d : TaskDefaults) (da : List SSHAuthMethod) (v : InvHost)
    (hk : v.Keys ≠ [])
    (hc : isAES256CipherText v.Passphrase = true)
    (hd : ∀ vp, dec v.Passphrase vp = none) :
    isErr (processInvHost venv dec sigOf d da v) = true := by
  have hks := keyStep_decrypt_abort venv dec sigOf v hk hc hd
  rw [processInvHost]
  cases hx : keyStep venv dec sigOf v with
  | error e => simp [isErr]
  | ok p => rw [hx, isErr] at hks; cases hks

theorem processInvHost_decrypt_abort (venv : VaultEnv)
    (dec : String → String → Option String) (sigOf : String → String → Option String)
    (d : TaskDefaults) (da : List SSHAuthMethod) (v : InvHost)
    (hc : isAES256CipherText v.Password = true)
    (hd : ∀ vp, dec v.Password vp = none) :
    isErr (processInvHost venv dec sigOf d da v) = true := by
  have hps := passStep_decrypt_abort venv dec d v hc hd
  rw [processInvHost]
  cases hks : keyStep venv dec sigOf v with
  | error e => simp [isErr]
  | ok p =>
    cases hp : passStep venv dec d v with
    | error e => simp [isErr]
    | ok q => rw [hp, isErr] at hps; cases hps

theorem getAllHosts_member_abort (venv : VaultEnv)
    (dec : String → String → Option String) (sigOf : String → String → Option String)
    (d : TaskDefaults) (da : List SSHAuthMethod) (hosts : List InvHost) (v : InvHost)
    (hmem : v ∈ hosts)
    (hv : isErr (processInvHost venv dec sigOf d da v) = true) :
    isErr (getAllHostsFromInventory venv dec sigOf d da hosts) = true := by
  induction hosts with
  | nil => cases hmem
  | cons x rest ih =>
    rw [getAllHostsFromInventory]
    cases hx : processInvHost venv dec sigOf d da x with
    | error e => simp [isErr]
    | ok p =>
      rcases List.mem_cons.mp hmem with h | h
      · subst h; rw [hx, isErr] at hv; cases hv
      · have hrec := ih h
        cases hrest : getAllHostsFromInventory venv dec sigOf d da rest with
        | error e => simp [isErr]
        | ok q => rw [hrest, isErr] at hrec; cases hrec

/-- An inventory host with identity keys whose passphrase is a vault
ciphertext. -/
def hKeyCipher : InvHost := ⟨"web3", "web3", 22, "root", "", ["k1"], cipher0⟩

/-- C1 amended: a vault decryption failure for any host password or any
host passphrase is fatal to the entire task. assignRealPass routes the
error into util.CheckErr, which terminates the run while hosts are still
being resolved, so no Failed host result is produced and the remaining
hosts are never processed: whether the failing ciphertext is a member host
password (first clause) or the passphrase of a member host that has
identity keys (second clause, sshtask.go line 489), the whole resolution
errors out. -/
theorem C1_decrypt_failure_is_fatal :
    (∀ (venv : VaultEnv) (dec sigOf : String → String → Option String)
      (d : TaskDefaults) (da : List SSHAuthMethod) (hosts : List InvHost) (v : InvHost),
      v ∈ hosts → isAES256CipherText v.Password = true →
      (∀ vp, dec v.Password vp = none) →
      isErr (getAllHostsFromInventory venv dec sigOf d da hosts) = true) ∧
    (∀ (venv : VaultEnv) (dec sigOf : String → String → Option String)
      (d : TaskDefaults) (da : List SSHAuthMethod) (hosts : List InvHost) (v : InvHost),
      v ∈ hosts → v.Keys ≠ [] → isAES256CipherText v.Passphrase = true →
      (∀ vp, dec v.Passphrase vp = none) →
      isErr (getAllHostsFromInventory venv dec sigOf d da hosts) = true) := by
  constructor
  · intro venv dec sigOf d da hosts v hmem hc hd
    exact getAllHosts_member_abort venv dec sigOf d da hosts v hmem
      (processInvHost_decrypt_abort venv dec sigOf d da v hc hd)
  · intro venv dec sigOf d da hosts v hmem hk hc hd
    exact getAllHosts_member_abort venv dec sigOf d da hosts v hmem
      (processInvHost_passphrase_abort venv dec sigOf d da v hk hc hd)

/-- Closed witness for the amended C1: the password clause at the concrete
counterexample pair, and the passphrase clause at a host whose identity-key
passphrase is an undecryptable ciphertext. -/
theorem C1_decrypt_failure_is_fatal_witness :
    isErr (getAllHostsFromInventory venv0 decFail sig0 d0 [] [hCipher, hPlain]) = true ∧
    isErr (getAllHostsFromInventory venv0 decFail sig0 d0 [] [hKeyCipher, hPlain]) = true :=
  ⟨C1_decrypt_failure_is_fatal.1 venv0 decFail sig0 d0 [] [hCipher, hPlain] hCipher
      (List.mem_cons_self _ _) (by decide) (fun _ => rfl),
    C1_decrypt_failure_is_fatal.2 venv0 decFail sig0 d0 [] [hKeyCipher, hPlain] hKeyCipher
      (List.mem_cons_self _ _) (by decide) (by decide) (fun _ => rfl)⟩

/-! ### Vault password read counting (C3) -/

/-- Number of GetVaultPassword invocations performed by a completed host
resolution (0 when the resolution aborted). -/
def vaultReads (x : Except TaskAbort (List BHost × Nat)) : Nat :=
  match x with
  | Except.ok p => p.2
  | Except.error _ => 0

/-- Specification-side count of the vault-ciphertext secrets the inventory
loop passes to assignRealPass: one per host with identity keys and a
ciphertext passphrase, plus one per host whose effective password (the task
default if the host has none) is a ciphertext. -/
def cipherFieldCount (d : TaskDefaults) : List InvHost → Nat
  | [] => 0
  | v :: rest =>
    (if v.Keys ≠ [] then (if isAES256CipherText v.Passphrase then 1 else 0) else 0) +
    ((if v.Password = "" then (if isAES256CipherText d.defaultPass then 1 else 0)
      else (if isAES256CipherText v.Password then 1 else 0)) +
     cipherFieldCount d rest)

/-- C3 counterexample: two inventory hosts with vault-encrypted passwords
cause two GetVaultPassword invocations in one task, refuting the claim that
the vault password is obtained at most once and cached: the vault package
re-reads its source (file or prompt) on every decryption. -/
theorem C3_counterexample :
    ¬ (vaultReads (getAllHostsFromInventory venv0 decOk sig0 d0 [] [hCipher, hCipher2]) ≤ 1) := by
  decide

theorem assignRealPass_count (venv : VaultEnv) (dec : String → String → Option String)
    (pass : String) (vp : String × Nat)
    (hv : getVaultPassword venv = Except.ok vp)
    (hd : ∀ s p, (dec s p).isSome = true) :
    ∃ q, assignRealPass venv dec pass =
      Except.ok (q, if isAES256CipherText pass then 1 else 0) := by
  cases hc : isAES256CipherText pass with
  | false => exact ⟨pass, by rw [assignRealPass]; simp [hc]⟩
  | true =>
    have hs := hd pass vp.1
    cases hds : dec pass vp.1 with
    | none => rw [hds] at hs; cases hs
    | some p => exact ⟨p, by rw [assignRealPass]; simp [hc, hv, hds]⟩

theorem keyStep_count (venv : VaultEnv) (dec : String → String → Option String)
    (sigOf : String → String → Option String) (v : InvHost) (vp : String × Nat)
    (hv : getVaultPassword venv = Except.ok vp)
    (hd : ∀ s p, (dec s p).isSome = true) :
    ∃ a, keyStep venv dec sigOf v =
      Except.ok (a, if v.Keys ≠ [] then (if isAES256CipherText v.Passphrase then 1 else 0) else 0) := by
  by_cases hk : v.Keys = []
  · exact ⟨[], by rw [keyStep]; simp [hk]⟩
  · obtain ⟨q, hq⟩ := assignRealPass_count venv dec v.Passphrase vp hv hd
    by_cases hsg : getSigners sigOf v.Keys q = []
    · exact ⟨[], by rw [keyStep]; simp [hk, hq, hsg]⟩
    · exact ⟨[SSHAuthMethod.publicKeys (getSigners sigOf v.Keys q)], by
        rw [keyStep]; simp [hk, hq, hsg]⟩

theorem passStep_count (venv : VaultEnv) (dec : String → String → Option String)
    (d : TaskDefaults) (v : InvHost) (vp : String × Nat)
    (hv : getVaultPassword venv = Except.ok vp)
    (hd : ∀ s p, (dec s p).isSome = true) :
    ∃ a s, passStep venv dec d v =
      Except.ok (a, s, if v.Password = "" then (if isAES256CipherText d.defaultPass then 1 else 0)
        else (if isAES256CipherText v.Password then 1 else 0)) := by
  by_cases hp : v.Password = ""
  · obtain ⟨q, hq⟩ := assignRealPass_count venv dec d.defaultPass vp hv hd
    exact ⟨[], q, by rw [passStep]; simp [hp, hq]⟩
  · obtain ⟨q, hq⟩ := assignRealPass_count venv dec v.Password vp hv hd
    exact ⟨[SSHAuthMethod.password q], q, by rw [passStep]; simp [hp, hq]⟩

/-- C3 amended: the vault password is obtained on every need, not once.
When the vault source yields a password and decryption succeeds, a completed
host resolution performs exactly one GetVaultPassword invocation per
vault-ciphertext secret it resolves: nothing is cached, so a task with two
or more encrypted secrets re-reads the vault password file (or re-prompts)
each time. -/
theorem C3_vault_password_read_per_secret (venv : VaultEnv)
    (dec : String → String → Option String) (sigOf : String → String → Option String)
    (d : TaskDefaults) (da : List SSHAuthMethod) (hosts : List InvHost) (vp : String × Nat)
    (hv : getVaultPassword venv = Except.ok vp)
    (hd : ∀ s p, (dec s p).isSome = true) :
    ∃ hs, getAllHostsFromInventory venv dec sigOf d da hosts =
      Except.ok (hs, cipherFieldCount d hosts) := by
  induction hosts with
  | nil => exact ⟨[], rfl⟩
  | cons v rest ih =>
    obtain ⟨hs, hrest⟩ := ih
    obtain ⟨a1, hk⟩ := keyStep_count venv dec sigOf v vp hv hd
    obtain ⟨a2, s2, hp⟩ := passStep_count venv dec d v vp hv hd
    refine ⟨(⟨v.Alias, v.Host, (if v.Port = 0 then d.port else v.Port),
        (if v.User = "" then d.user else v.User), s2, v.Keys,
        a1 ++ a2 ++ da⟩ : BHost) :: hs, ?_⟩
    simp only [getAllHostsFromInventory, processInvHost, hk, hp, hrest, cipherFieldCount]
    simp [Nat.add_assoc]

/-- Closed witness for the amended C3: the two-ciphertext-host resolution
completes with exactly two vault password reads. -/
theorem C3_vault_password_read_per_secret_witness :
    ∃ hs, getAllHostsFromInventory venv0 decOk sig0 d0 [] [hCipher, hCipher2] =
      Except.ok (hs, 2) := by
  have h := C3_vault_password_read_per_secret venv0 decOk sig0 d0 [] [hCipher, hCipher2]
    ("vaultpw", 0) rfl (fun s p => rfl)
  simpa using h

/-! ### setDefaultSSHAuthMethods (sshtask.go lines 592-650)

The assembler collects signers from the live SSH agent (modelled as the
list the agent yields; empty when the socket is absent or fails), appends
the signers parsed from the default identity files, wraps all of them into
one public key method when any exist, then appends a password method when a
default password is present; when none is present but sudo is requested it
prompts once and uses the prompted password. -/

/-- The inputs of setDefaultSSHAuthMethods: the signers a live agent
yields, the configured identity files with the signer parser, the default
password, the passphrase, whether sudo was requested, and what a terminal
prompt would return. -/
structure TaskAuthConf where
  agentSigners : List String
  defaultIdentityFiles : List String
  passphrase : String
  defaultPass : String
  runSudo : Bool
  promptPass : String
  deriving DecidableEq, Repr

/-- sshtask.go setDefaultSSHAuthMethods. Returns the assembled method list,
the value of defaultPass afterwards (the prompted password is written back
through the shared pointer), and the number of terminal prompts issued. -/
def setDefaultSSHAuthMethods (sigOf : String → String → Option String)
    (c : TaskAuthConf) : List SSHAuthMethod × String × Nat :=
  let signers :=
    if c.defaultIdentityFiles ≠ [] then
      c.agentSigners ++ getSigners sigOf c.defaultIdentityFiles c.passphrase
    else c.agentSigners
  let auths : List SSHAuthMethod :=
    if signers ≠ [] then [SSHAuthMethod.publicKeys signers] else []
  if c.defaultPass ≠ "" then
    (auths ++ [SSHAuthMethod.password c.defaultPass], c.defaultPass, 0)
  else if c.runSudo then
    (auths ++ [SSHAuthMethod.password c.promptPass], c.promptPass, 1)
  else (auths, c.defaultPass, 0)

/-- C6: the default method list is ordered with a single public key method
first, carrying the agent signers followed by the signers parsed from the
configured identity files, and when a default password is present a
password method is appended after it. -/
theorem C6_default_auth_order (sigOf : String → String → Option String)
    (c : TaskAuthConf) (hp : c.defaultPass ≠ "") (hf : c.defaultIdentityFiles ≠ []) :
    (setDefaultSSHAuthMethods sigOf c).1 =
      (if c.agentSigners ++ getSigners sigOf c.defaultIdentityFiles c.passphrase = [] then []
       else [SSHAuthMethod.publicKeys
         (c.agentSigners ++ getSigners sigOf c.defaultIdentityFiles c.passphrase)]) ++
      [SSHAuthMethod.password c.defaultPass] := by
  rw [setDefaultSSHAuthMethods]
  by_cases hs : c.agentSigners ++ getSigners sigOf c.defaultIdentityFiles c.passphrase = [] <;>
    simp [hf, hp, hs]

/-- Closed witness for C6: one agent signer, one identity-file signer, and
a configured password at concrete inputs. -/
theorem C6_default_auth_order_witness :
    (setDefaultSSHAuthMethods (fun f _ => some f) ⟨["agent1"], ["id_rsa"], "", "pw", false, ""⟩).1 =
      [SSHAuthMethod.publicKeys ["agent1", "id_rsa"], SSHAuthMethod.password "pw"] := by
  have h := C6_default_auth_order (fun f _ => some f)
    ⟨["agent1"], ["id_rsa"], "", "pw", false, ""⟩ (by decide) (by decide)
  simpa using h

/-- C7: if sudo is requested and no password was supplied by any earlier
source, the assembler prompts exactly once; the prompted password is both
appended as the final SSH password auth method and written back into the
task default password, which is what is later injected at sudo prompts. -/
theorem C7_sudo_prompts_once (sigOf : String → String → Option String)
    (c : TaskAuthConf) (hp : c.defaultPass = "") (hs : c.runSudo = true) :
    (setDefaultSSHAuthMethods sigOf c).2.2 = 1 ∧
    (setDefaultSSHAuthMethods sigOf c).2.1 = c.promptPass ∧
    (setDefaultSSHAuthMethods sigOf c).1.getLast? =
      some (SSHAuthMethod.password c.promptPass) := by
  rw [setDefaultSSHAuthMethods]
  simp [hp, hs, List.getLast?_append]

/-- Closed witness for C7 at a concrete configuration with sudo and no
password from any source. -/
theorem C7_sudo_prompts_once_witness :
    (setDefaultSSHAuthMethods sig0 ⟨[], [], "", "", true, "typedpw"⟩).2.2 = 1 ∧
    (setDefaultSSHAuthMethods sig0 ⟨[], [], "", "", true, "typedpw"⟩).2.1 = "typedpw" ∧
    (setDefaultSSHAuthMethods sig0 ⟨[], [], "", "", true, "typedpw"⟩).1.getLast? =
      some (SSHAuthMethod.password "typedpw") :=
  C7_sudo_prompts_once sig0 ⟨[], [], "", "", true, "typedpw"⟩ rfl rfl

/-! ### getDefaultPassword (sshtask.go lines 697-730)

The default password starts empty; a configured password file contributes
its trimmed contents; a password from flag or configuration file overrides
it; the result is vault-resolved through assignRealPass; finally, with
ask-pass set, a terminal prompt overrides everything and is used verbatim,
never passing through assignRealPass. -/

/-- The auth sub-configuration consulted by getDefaultPassword. -/
structure AuthConf where
  password : String
  passFile : String
  askPass : Bool
  deriving DecidableEq, Repr

/-- sshtask.go getDefaultPassword. fileContents models reading passFile
(none is a read error, which util.CheckErr turns into an abort);
promptPass models the terminal prompt. -/
def getDefaultPassword (venv : VaultEnv) (dec : String → String → Option String)
    (fileContents : Option String) (promptPass : String) (a : AuthConf) :
    Except TaskAbort String :=
  match (if a.passFile ≠ "" then
      match fileContents with
      | none => Except.error TaskAbort.passFileRead
      | some c => Except.ok (trimSpace c)
    else Except.ok "" : Except TaskAbort String) with
  | Except.error e => Except.error e
  | Except.ok fromFile =>
    let password := if a.password ≠ "" then a.password else fromFile
    match assignRealPass venv dec password with
    | Except.error e => Except.error e
    | Except.ok pr =>
      Except.ok (if a.askPass then promptPass else pr.1)

/-- C10: the default password precedence. A flag or configuration password
overrides the trimmed password file contents; the chosen value is
vault-decrypted exactly when it matches the ciphertext header; and with
ask-pass set the prompted password overrides both earlier sources and is
returned verbatim for every decryption oracle, even when it matches the
ciphertext header itself. -/
theorem C10_default_password_precedence :
    (∀ venv dec c promptPass a, a.password ≠ "" →
      isAES256CipherText a.password = false → a.askPass = false →
      getDefaultPassword venv dec (some c) promptPass a = Except.ok a.password) ∧
    (∀ venv dec c promptPass a, a.password = "" → a.passFile ≠ "" →
      isAES256CipherText (trimSpace c) = false → a.askPass = false →
      getDefaultPassword venv dec (some c) promptPass a = Except.ok (trimSpace c)) ∧
    (∀ venv dec c promptPass a vp pt, a.password ≠ "" →
      isAES256CipherText a.password = true → a.askPass = false →
      getVaultPassword venv = Except.ok vp → dec a.password vp.1 = some pt →
      getDefaultPassword venv dec (some c) promptPass a = Except.ok pt) ∧
    (∀ venv dec c promptPass a, a.askPass = true → a.password ≠ "" →
      isAES256CipherText a.password = false →
      getDefaultPassword venv dec (some c) promptPass a = Except.ok promptPass) := by
  refine ⟨?_, ?_, ?_, ?_⟩
  · intro venv dec c promptPass a hp hc hask
    rw [getDefaultPassword]
    by_cases hf : a.passFile = "" <;>
      simp [hf, hp, assignRealPass, hc, hask]
  · intro venv dec c promptPass a hp hf hc hask
    rw [getDefaultPassword]
    simp [hf, hp, assignRealPass, hc, hask]
  · intro venv dec c promptPass a vp pt hp hc hask hv hd
    rw [getDefaultPassword]
    by_cases hf : a.passFile = "" <;>
      simp [hf, hp, assignRealPass, hc, hv, hd, hask]
  · intro venv dec c promptPass a hask hp hc
    rw [getDefaultPassword]
    by_cases hf : a.passFile = "" <;>
      simp [hf, hp, assignRealPass, hc, hask]

/-- Closed witness for C10: all four precedence clauses at concrete inputs;
the last one shows the ask-pass prompt answer overriding both a flag
password and the file contents and coming back verbatim under a decryption
oracle that would have rewritten any ciphertext. -/
theorem C10_default_password_precedence_witness :
    getDefaultPassword venv0 decOk (some " filepw ") "" ⟨"flagpw", "pf", false⟩ =
      Except.ok "flagpw" ∧
    getDefaultPassword venv0 decOk (some " filepw ") "" ⟨"", "pf", false⟩ =
      Except.ok "filepw" ∧
    getDefaultPassword venv0 decOk (some " filepw ") "" ⟨cipher0, "pf", false⟩ =
      Except.ok "sesame" ∧
    getDefaultPassword venv0 decOk (some " filepw ") "typedpw" ⟨"flagpw", "pf", true⟩ =
      Except.ok "typedpw" := by
  refine ⟨?_, ?_, ?_, ?_⟩
  · exact C10_default_password_precedence.1 venv0 decOk " filepw " "" ⟨"flagpw", "pf", false⟩
      (by decide) (by decide) rfl
  · exact C10_default_password_precedence.2.1 venv0 decOk " filepw " "" ⟨"", "pf", false⟩
      rfl (by decide) (by decide) rfl
  · exact C10_default_password_precedence.2.2.1 venv0 decOk " filepw " "" ⟨cipher0, "pf", false⟩
      ("vaultpw", 0) "sesame" (by decide) (by decide) rfl rfl rfl
  · exact C10_default_password_precedence.2.2.2 venv0 decOk " filepw " "typedpw"
      ⟨"flagpw", "pf", true⟩ rfl (by decide) (by decide)

/-! ### HandleOutput sudo prompt stripping (sshtask.go lines 50-57, 341-380)

HandleOutput normalizes CRLF to LF, then deletes every match of

  (?s).*\[sudo\] password for U:(\n|)|(?s).*\[sudo\] U 的密码：(\n|)

with U = [a-zA-Z0-9_.-]+[$]? via regexp.ReplaceAllString, then trims
whitespace. Go regexp (RE2) uses leftmost-first semantics: a match starts
at the leftmost position where any alternative matches; the first
alternative is preferred; inside an alternative the dotall greedy prefix
takes the longest extent, so a match runs from the start of the text to the
end of the LAST occurrence of the prompt literal, preferring the English
branch, and then eats one following newline if present. ReplaceAllString
then rescans the remainder. The embedding below implements exactly that:
matchEn and matchCn recognize one prompt occurrence at the head of a
suffix; lastRem finds the occurrence with the latest start and returns its
remainder; stripAux deletes prefix after prefix until no prompt is left. -/

/-- Consume an exact literal from the head of a rune list, returning the
remainder. -/
def stripLit : List Char → List Char → Option (List Char)
  | [], l => some l
  | _ :: _, [] => none
  | p :: ps, c :: cs => if c = p then stripLit ps cs else none

/-- The character class of linuxUserRegex without the optional dollar:
[a-zA-Z0-9_.-]. -/
def isUserChar (c : Char) : Bool :=
  c.isAlpha || c.isDigit || c = '_' || c = '.' || c = '-'

def enLit : List Char := "[sudo] password for ".data

def cnLit : List Char := "[sudo] ".data

def cnTail : List Char := " 的密码：".data

/-- After the user-name run of the English prompt: an optional dollar
(greedy) then the colon. Backtracking cannot help: the run is maximal, so
the next character is neither a user character nor reachable by shortening
the run. -/
def enTail : List Char → Option (List Char)
  | '$' :: ':' :: r => some r
  | ':' :: r => some r
  | _ => none

/-- After the user-name run of the Chinese prompt: an optional dollar then
the literal tail. -/
def cnTailMatch : List Char → Option (List Char)
  | '$' :: r => stripLit cnTail r
  | l => stripLit cnTail l

/-- One occurrence of the English sudo prompt at the head of the list:
the literal, a non-empty greedy user-character run, an optional dollar, a
colon. Returns the remainder after the occurrence. -/
def matchEn (l : List Char) : Option (List Char) :=
  match stripLit enLit l with
  | none => none
  | some l1 =>
    if (l1.takeWhile isUserChar).isEmpty then none
    else enTail (l1.dropWhile isUserChar)

/-- One occurrence of the Chinese sudo prompt at the head of the list. -/
def matchCn (l : List Char) : Option (List Char) :=
  match stripLit cnLit l with
  | none => none
  | some l1 =>
    if (l1.takeWhile isUserChar).isEmpty then none
    else cnTailMatch (l1.dropWhile isUserChar)

/-- The remainder after the occurrence of m with the latest start position
(the extent the greedy dotall prefix of the regex selects): suffixes are
tried from the shortest start, i.e. later positions take precedence. -/
def lastRem (m : List Char → Option (List Char)) : List Char → Option (List Char)
  | [] => m []
  | c :: rest =>
    match lastRem m rest with
    | some r => some r
    | none => m (c :: rest)

/-- The (\n|) group: greedy, so one following newline joins the match. -/
def dropLF : List Char → List Char
  | '\n' :: r => r
  | l => l

/-- The ReplaceAllString loop: while some alternative matches, delete from
the start of the text through the selected occurrence (English branch
preferred, latest start, trailing newline included) and rescan the
remainder. Each round removes at least one rune, so the length of the
input is enough fuel. -/
def stripAux : Nat → List Char → List Char
  | 0, l => l
  | fuel + 1, l =>
    match lastRem matchEn l with
    | some r => stripAux fuel (dropLF r)
    | none =>
      match lastRem matchCn l with
      | some r => stripAux fuel (dropLF r)
      | none => l

/-- The sudo-prompt stripping HandleOutput applies (sshtask.go 347-354). -/
def stripSudoPrompt (s : String) : String :=
  String.mk (stripAux s.data.length s.data)

/-- Go strings.ReplaceAll(s, CRLF, LF) (sshtask.go 345). -/
def normCRLF : List Char → List Char
  | '\r' :: '\n' :: rest => '\n' :: normCRLF rest
  | c :: rest => c :: normCRLF rest
  | [] => []

/-- The message HandleOutput derives from a raw per-host output before
logging it (sshtask.go 341-363): CRLF normalization, prompt stripping,
whitespace trimming. -/
def handleOutputMessage (s : String) : String :=
  trimSpace (stripSudoPrompt (String.mk (normCRLF s.data)))

theorem stripLit_suffix : ∀ (p l r : List Char), stripLit p l = some r →
    r <:+ l ∧ r.length + p.length = l.length := by
  intro p
  induction p with
  | nil =>
    intro l r h
    have h1 : some l = some r := h
    injection h1 with h1
    subst h1
    exact ⟨List.suffix_refl l, by simp⟩
  | cons q ps ih =>
    intro l r h
    cases l with
    | nil => exact Option.noConfusion h
    | cons c cs =>
      have h1 : (if c = q then stripLit ps cs else none) = some r := h
      by_cases hc : c = q
      · rw [if_pos hc] at h1
        obtain ⟨h2, h3⟩ := ih cs r h1
        refine ⟨h2.trans (List.suffix_cons c cs), ?_⟩
        simp only [List.length_cons]
        omega
      · rw [if_neg hc] at h1
        exact Option.noConfusion h1

theorem enTail_suffix (l r : List Char) (h : enTail l = some r) :
    r <:+ l ∧ r.length < l.length := by
  unfold enTail at h
  split at h
  · injection h with h
    subst h
    exact ⟨(List.suffix_cons _ _).trans (List.suffix_cons _ _), by simp only [List.length_cons]; omega⟩
  · injection h with h
    subst h
    exact ⟨List.suffix_cons _ _, by simp⟩
  · exact Option.noConfusion h

theorem cnTailMatch_suffix (l r : List Char) (h : cnTailMatch l = some r) :
    r <:+ l ∧ r.length < l.length := by
  have hct : cnTail.length = 5 := rfl
  unfold cnTailMatch at h
  split at h
  · obtain ⟨h1, h2⟩ := stripLit_suffix cnTail _ r h
    refine ⟨h1.trans (List.suffix_cons _ _), ?_⟩
    simp only [List.length_cons]
    omega
  · obtain ⟨h1, h2⟩ := stripLit_suffix cnTail _ r h
    exact ⟨h1, by omega⟩

theorem matchEn_suffix (l r : List Char) (h : matchEn l = some r) :
    r <:+ l ∧ r.length < l.length := by
  have hel : enLit.length = 20 := rfl
  unfold matchEn at h
  cases hsl : stripLit enLit l with
  | none => rw [hsl] at h; exact Option.noConfusion h
  | some l1 =>
    rw [hsl] at h
    have h1 : (if (l1.takeWhile isUserChar).isEmpty then none
        else enTail (l1.dropWhile isUserChar)) = some r := h
    by_cases hrun : (l1.takeWhile isUserChar).isEmpty
    · rw [if_pos hrun] at h1; exact Option.noConfusion h1
    · rw [if_neg hrun] at h1
      obtain ⟨hs1, hl1⟩ := stripLit_suffix enLit l l1 hsl
      obtain ⟨hs2, hl2⟩ := enTail_suffix _ r h1
      have hsd : l1.dropWhile isUserChar <:+ l1 := List.dropWhile_suffix _
      refine ⟨(hs2.trans hsd).trans hs1, ?_⟩
      have hld := hsd.length_le
      omega

theorem matchCn_suffix (l r : List Char) (h : matchCn l = some r) :
    r <:+ l ∧ r.length < l.length := by
  have hcl : cnLit.length = 7 := rfl
  unfold matchCn at h
  cases hsl : stripLit cnLit l with
  | none => rw [hsl] at h; exact Option.noConfusion h
  | some l1 =>
    rw [hsl] at h
    have h1 : (if (l1.takeWhile isUserChar).isEmpty then none
        else cnTailMatch (l1.dropWhile isUserChar)) = some r := h
    by_cases hrun : (l1.takeWhile isUserChar).isEmpty
    · rw [if_pos hrun] at h1; exact Option.noConfusion h1
    · rw [if_neg hrun] at h1
      obtain ⟨hs1, hl1⟩ := stripLit_suffix cnLit l l1 hsl
      obtain ⟨hs2, hl2⟩ := cnTailMatch_suffix _ r h1
      have hsd : l1.dropWhile isUserChar <:+ l1 := List.dropWhile_suffix _
      refine ⟨(hs2.trans hsd).trans hs1, ?_⟩
      have hld := hsd.length_le
      omega

theorem lastRem_suffix (m : List Char → Option (List Char))
    (hm : ∀ l r, m l = some r → r <:+ l ∧ r.length < l.length) :
    ∀ l r, lastRem m l = some r → r <:+ l ∧ r.length < l.length := by
  intro l
  induction l with
  | nil => intro r h; exact hm [] r h
  | cons c rest ih =>
    intro r h
    rw [lastRem] at h
    cases hrs : lastRem m rest with
    | some q =>
      rw [hrs] at h
      have h1 : some q = some r := h
      injection h1 with h1
      subst h1
      obtain ⟨h2, h3⟩ := ih _ hrs
      refine ⟨h2.trans (List.suffix_cons c rest), ?_⟩
      simp only [List.length_cons]
      omega
    | none =>
      rw [hrs] at h
      exact hm _ r h

theorem lastRem_none (m : List Char → Option (List Char)) :
    ∀ l, lastRem m l = none ↔ ∀ s, s <:+ l → m s = none := by
  intro l
  induction l with
  | nil =>
    constructor
    · intro h s hs
      rw [List.suffix_nil] at hs
      subst hs
      exact h
    · intro h
      exact h [] (List.suffix_refl [])
  | cons c rest ih =>
    constructor
    · intro h s hs
      rw [lastRem] at h
      cases hrs : lastRem m rest with
      | some q => rw [hrs] at h; exact Option.noConfusion h
      | none =>
        rw [hrs] at h
        have hc : m (c :: rest) = none := h
        rcases List.suffix_cons_iff.mp hs with h1 | h1
        · subst h1; exact hc
        · exact (ih.mp hrs) s h1
    · intro h
      rw [lastRem]
      have hrest : lastRem m rest = none :=
        ih.mpr (fun s hs => h s (hs.trans (List.suffix_cons c rest)))
      rw [hrest]
      exact h (c :: rest) (List.suffix_refl _)

theorem dropLF_suffix (l : List Char) : dropLF l <:+ l := by
  unfold dropLF
  split
  · exact List.suffix_cons _ _
  · exact List.suffix_refl _

theorem stripAux_suffix : ∀ (fuel : Nat) (l : List Char), stripAux fuel l <:+ l := by
  intro fuel
  induction fuel with
  | zero => intro l; exact List.suffix_refl l
  | succ n ih =>
    intro l
    rw [stripAux]
    cases hEn : lastRem matchEn l with
    | some r =>
      have h1 := (lastRem_suffix matchEn matchEn_suffix l r hEn).1
      exact ((ih (dropLF r)).trans (dropLF_suffix r)).trans h1
    | none =>
      cases hCn : lastRem matchCn l with
      | some r =>
        have h1 := (lastRem_suffix matchCn matchCn_suffix l r hCn).1
        exact ((ih (dropLF r)).trans (dropLF_suffix r)).trans h1
      | none =>
        exact List.suffix_refl l

theorem stripAux_prompt_free : ∀ (fuel : Nat) (l : List Char), l.length ≤ fuel →
    lastRem matchEn (stripAux fuel l) = none ∧
    lastRem matchCn (stripAux fuel l) = none := by
  intro fuel
  induction fuel with
  | zero =>
    intro l hl
    have h0 : l = [] := List.eq_nil_of_length_eq_zero (Nat.le_zero.mp hl)
    subst h0
    exact ⟨rfl, rfl⟩
  | succ n ih =>
    intro l hl
    rw [stripAux]
    cases hEn : lastRem matchEn l with
    | some r =>
      have hr := (lastRem_suffix matchEn matchEn_suffix l r hEn).2
      have hd : (dropLF r).length ≤ n := by
        have := (dropLF_suffix r).length_le
        omega
      exact ih (dropLF r) hd
    | none =>
      cases hCn : lastRem matchCn l with
      | some r =>
        have hr := (lastRem_suffix matchCn matchCn_suffix l r hCn).2
        have hd : (dropLF r).length ≤ n := by
          have := (dropLF_suffix r).length_le
          omega
        exact ih (dropLF r) hd
      | none =>
        exact ⟨hEn, hCn⟩

/-- C2 amended: the sudo-prompt stripping does not remove only the matched
prompt span. Because the compiled pattern begins with a greedy dotall
prefix, each replacement deletes everything from the start of the output
through the last matched prompt, so the emitted message is always a
prompt-free suffix of the raw output: a command that itself prints a line
matching the prompt pattern loses all of its earlier output, not at most
one line. -/
theorem C2_strip_removes_prefix_to_last_prompt (s : String) :
    (stripSudoPrompt s).data <:+ s.data ∧
    lastRem matchEn (stripSudoPrompt s).data = none ∧
    lastRem matchCn (stripSudoPrompt s).data = none := by
  refine ⟨?_, ?_⟩
  · exact stripAux_suffix s.data.length s.data
  · exact stripAux_prompt_free s.data.length s.data (Nat.le_refl _)

/-- Go strings.Split on newline, for stating which output lines survive. -/
def splitLines : List Char → List (List Char)
  | [] => [[]]
  | '\n' :: rest => [] :: splitLines rest
  | c :: rest =>
    match splitLines rest with
    | [] => [[c]]
    | l :: ls => (c :: l) :: ls

def linesOf (s : String) : List String :=
  (splitLines s.data).map String.mk

/-- Whether a string contains a sudo prompt occurrence. -/
def containsPrompt (s : String) : Bool :=
  (lastRem matchEn s.data).isSome || (lastRem matchCn s.data).isSome

/-- The non-prompt lines of the raw output that no longer occur in the
emitted message: the command output the stripping suppressed. -/
def suppressedPlainLines (s : String) : List String :=
  (linesOf s).filter
    (fun ln => !containsPrompt ln && !(linesOf (handleOutputMessage s)).contains ln)

/-- C2 counterexample: on the output a, b, prompt line, c the stripping
deletes the two plain lines a and b along with the prompt, so more than one
line of the command output is suppressed, refuting the claim. -/
theorem C2_counterexample :
    ¬ ((suppressedPlainLines "a\nb\n[sudo] password for root:\nc").length ≤ 1) := by
  decide

end Gosible
